import Mathlib

/-
  Verification of the skeletal animation core of the `gods` engine
  (src/native/src/animation_system.cpp, src/native/src/model_loader.cpp).

  Shallow embedding: C++ floats are modelled as real numbers, the
  per-model mutable state and the global registries (g_models,
  g_blendStates) as explicit state records, printf diagnostics as an
  explicit result code.  Every definition mirrors the corresponding
  source function; line references are given in the doc comments.
-/

namespace Gods

noncomputable section

/-- A 4-component value (float value[4] in `Keyframe`, quaternions in
(x,y,z,w) order). -/
structure Vec4 where
  x : ℝ
  y : ℝ
  z : ℝ
  w : ℝ

/-- A 4x4 matrix stored flat as in the C++ float[16]; field `mN` is the
flat entry `m[N]`, i.e. row-index `N / 4`, column-index `N % 4` under the
indexing used by `mat4_multiply` (animation_system.cpp:230-239). -/
structure Mat4 where
  m0 : ℝ
  m1 : ℝ
  m2 : ℝ
  m3 : ℝ
  m4 : ℝ
  m5 : ℝ
  m6 : ℝ
  m7 : ℝ
  m8 : ℝ
  m9 : ℝ
  m10 : ℝ
  m11 : ℝ
  m12 : ℝ
  m13 : ℝ
  m14 : ℝ
  m15 : ℝ

/-- The identity matrix (diagonal entries 0, 5, 10, 15 equal to 1). -/
def mat4_identity : Mat4 :=
  ⟨1, 0, 0, 0, 0, 1, 0, 0, 0, 0, 1, 0, 0, 0, 0, 1⟩

/-- The all-zero matrix: the value of uninitialised entries of the
zero-initialised `std::vector<float> globalTransforms`
(animation_system.cpp:244). -/
def mat4_zero : Mat4 :=
  ⟨0, 0, 0, 0, 0, 0, 0, 0, 0, 0, 0, 0, 0, 0, 0, 0⟩

/-- Source `mat4_multiply` (animation_system.cpp:230-239):
`out[i*4+j] = sum over k of a[i*4+k] * b[k*4+j]`, written out entrywise. -/
def mat4_multiply (a b : Mat4) : Mat4 where
  m0 := a.m0*b.m0 + a.m1*b.m4 + a.m2*b.m8 + a.m3*b.m12
  m1 := a.m0*b.m1 + a.m1*b.m5 + a.m2*b.m9 + a.m3*b.m13
  m2 := a.m0*b.m2 + a.m1*b.m6 + a.m2*b.m10 + a.m3*b.m14
  m3 := a.m0*b.m3 + a.m1*b.m7 + a.m2*b.m11 + a.m3*b.m15
  m4 := a.m4*b.m0 + a.m5*b.m4 + a.m6*b.m8 + a.m7*b.m12
  m5 := a.m4*b.m1 + a.m5*b.m5 + a.m6*b.m9 + a.m7*b.m13
  m6 := a.m4*b.m2 + a.m5*b.m6 + a.m6*b.m10 + a.m7*b.m14
  m7 := a.m4*b.m3 + a.m5*b.m7 + a.m6*b.m11 + a.m7*b.m15
  m8 := a.m8*b.m0 + a.m9*b.m4 + a.m10*b.m8 + a.m11*b.m12
  m9 := a.m8*b.m1 + a.m9*b.m5 + a.m10*b.m9 + a.m11*b.m13
  m10 := a.m8*b.m2 + a.m9*b.m6 + a.m10*b.m10 + a.m11*b.m14
  m11 := a.m8*b.m3 + a.m9*b.m7 + a.m10*b.m11 + a.m11*b.m15
  m12 := a.m12*b.m0 + a.m13*b.m4 + a.m14*b.m8 + a.m15*b.m12
  m13 := a.m12*b.m1 + a.m13*b.m5 + a.m14*b.m9 + a.m15*b.m13
  m14 := a.m12*b.m2 + a.m13*b.m6 + a.m14*b.m10 + a.m15*b.m14
  m15 := a.m12*b.m3 + a.m13*b.m7 + a.m14*b.m11 + a.m15*b.m15

/-- Source `lerp` (animation_system.cpp:105-107): `a + (b - a) * t`. -/
def lerp (a b t : ℝ) : ℝ := a + (b - a) * t

/-- The 4-dimensional dot product computed at animation_system.cpp:111. -/
def qdot (a b : Vec4) : ℝ := a.x*b.x + a.y*b.y + a.z*b.z + a.w*b.w

/-- Componentwise negation of a quaternion (animation_system.cpp:116). -/
def qneg (a : Vec4) : Vec4 := ⟨-a.x, -a.y, -a.z, -a.w⟩

/-- Squared Euclidean norm of a quaternion, as summed at
animation_system.cpp:140. -/
def quatNormSq (a : Vec4) : ℝ := a.x*a.x + a.y*a.y + a.z*a.z + a.w*a.w

/-- Componentwise linear interpolation of two quaternions
(animation_system.cpp:123-126). -/
def vlerp4 (a b : Vec4) (t : ℝ) : Vec4 :=
  ⟨lerp a.x b.x t, lerp a.y b.y t, lerp a.z b.z t, lerp a.w b.w t⟩

/-- The final normalisation step of `slerp`
(animation_system.cpp:139-143): divide by the length when it is
positive, otherwise leave the vector unchanged. -/
def qnormalize (v : Vec4) : Vec4 :=
  if 0 < Real.sqrt (quatNormSq v) then
    ⟨v.x / Real.sqrt (quatNormSq v), v.y / Real.sqrt (quatNormSq v),
     v.z / Real.sqrt (quatNormSq v), v.w / Real.sqrt (quatNormSq v)⟩
  else v

/-- The hemisphere-corrected dot product `dot` of `slerp`
(animation_system.cpp:111-119). -/
def slerpD (q1 q2 : Vec4) : ℝ :=
  if qdot q1 q2 < 0 then -(qdot q1 q2) else qdot q1 q2

/-- The (possibly negated) second quaternion `q2n` of `slerp`
(animation_system.cpp:113-119). -/
def slerpQ2 (q1 q2 : Vec4) : Vec4 :=
  if qdot q1 q2 < 0 then qneg q2 else q2

/-- The spherical weight `w1 = sin((1-t) * theta) / sin(theta)` with
`theta = acos(dot)` (animation_system.cpp:128-130). -/
def slerpW1 (d t : ℝ) : ℝ :=
  Real.sin ((1 - t) * Real.arccos d) / Real.sin (Real.arccos d)

/-- The spherical weight `w2 = sin(t * theta) / sin(theta)`
(animation_system.cpp:131). -/
def slerpW2 (d t : ℝ) : ℝ :=
  Real.sin (t * Real.arccos d) / Real.sin (Real.arccos d)

/-- The weighted combination `q1 * w1 + q2n * w2`
(animation_system.cpp:133-136). -/
def vcomb (a b : Vec4) (u v : ℝ) : Vec4 :=
  ⟨a.x*u + b.x*v, a.y*u + b.y*v, a.z*u + b.z*v, a.w*u + b.w*v⟩

/-- Source `slerp` (animation_system.cpp:110-144): hemisphere correction when
the dot product is negative, normalised linear interpolation when the
(corrected) dot product exceeds 0.9995, spherical weights otherwise,
followed by normalisation. -/
def slerp (q1 q2 : Vec4) (t : ℝ) : Vec4 :=
  if (0.9995 : ℝ) < slerpD q1 q2 then
    qnormalize (vlerp4 q1 (slerpQ2 q1 q2) t)
  else
    qnormalize (vcomb q1 (slerpQ2 q1 q2) (slerpW1 (slerpD q1 q2) t)
      (slerpW2 (slerpD q1 q2) t))

/-- Source struct `Keyframe` (model_loader.h:49-52): a timestamp and a value of up to
four components. -/
structure Keyframe where
  time : ℝ
  value : Vec4

/-- Default keyframe used as the `getD` fallback; in-range accesses
never see it. -/
def dkf : Keyframe := ⟨0, ⟨0, 0, 0, 0⟩⟩

/-- Source enum `AnimationChannel::Property` (model_loader.h:57). -/
inductive ChannelProperty
  | translation
  | rotation
  | scale
deriving DecidableEq

/-- Source struct `AnimationChannel` (model_loader.h:55-59). -/
structure AnimationChannel where
  jointIndex : ℕ
  property : ChannelProperty
  keyframes : List Keyframe

/-- Source struct `AnimationClip` (model_loader.h:62-66). -/
structure AnimationClip where
  name : String
  duration : ℝ
  channels : List AnimationChannel

/-- Default clip used as the `getD` fallback; guarded accesses never
see it. -/
def dclip : AnimationClip := ⟨"", 0, []⟩

/-- Source struct `Joint` (model_loader.h:35-40): `parentIndex` is signed, -1 denotes
a root. -/
structure Joint where
  name : String
  parentIndex : ℤ
  inverseBindMatrix : Mat4
  localTransform : Mat4

/-- Source struct `Skeleton` (model_loader.h:43-46); the name-to-index map is not
consulted by the animation core. -/
structure Skeleton where
  joints : List Joint

/-- Source struct `Model` (model_loader.h:69-91), restricted to the fields the
animation core reads or writes; the `unordered_map`
`animationNameToIndex` is modelled as an association list. -/
structure Model where
  id : ℕ
  animations : List AnimationClip
  animationNameToIndex : List (String × ℕ)
  skeleton : Skeleton
  currentAnimation : ℕ
  animationTime : ℝ
  animationLooping : Bool
  boneMatrices : List Mat4

/-- Source struct `BlendState` (animation_system.cpp:14-21). -/
structure BlendState where
  modelId : ℕ
  fromAnimation : ℕ
  toAnimation : ℕ
  blendTime : ℝ
  blendProgress : ℝ
  active : Bool

/-- The global mutable state: `g_models` (model_loader.cpp) and
`g_blendStates` (animation_system.cpp:23), with the id-keyed
`unordered_map` of models as a list looked up by id. -/
structure EngineState where
  models : List Model
  blendStates : List BlendState

/-- Outcome of a command, making the early-return/printf paths of the
void C++ functions observable: `clipNotFound` is the
"Animation '%s' not found" log path, `modelNotFound` the silent
null-model early return. -/
inductive AnimResult
  | ok
  | modelNotFound
  | clipNotFound
deriving DecidableEq

/-- Source `model_get` on a plain model list (model_loader.cpp:406-409): the
entry with the given id, if any. -/
def modelGetL (ms : List Model) (modelId : ℕ) : Option Model :=
  ms.find? (fun m => m.id == modelId)

/-- Source `model_get` (model_loader.cpp:406-409) on the engine state. -/
def model_get (s : EngineState) (modelId : ℕ) : Option Model :=
  modelGetL s.models modelId

/-- In-place mutation through the pointer returned by `model_get`:
apply `f` to the (first) model with the given id. -/
def updateFirstModel (ms : List Model) (modelId : ℕ) (f : Model → Model) :
    List Model :=
  match ms with
  | [] => []
  | m :: rest =>
      if m.id = modelId then f m :: rest
      else m :: updateFirstModel rest modelId f

/-- Source `animation_set` (animation_system.cpp:37-52): null model → silent
return; unknown clip name → log and return; otherwise set
`currentAnimation`, reset `animationTime`, set the looping flag. -/
def animation_set (s : EngineState) (modelId : ℕ) (animName : String)
    (loop : Bool) : EngineState × AnimResult :=
  match model_get s modelId with
  | none => (s, .modelNotFound)
  | some model =>
      match model.animationNameToIndex.lookup animName with
      | none => (s, .clipNotFound)
      | some idx =>
          ({ s with models := updateFirstModel s.models modelId (fun m =>
              { m with currentAnimation := idx, animationTime := 0,
                       animationLooping := loop }) }, .ok)

/-- The create-or-update of the blend list (animation_system.cpp:64-83):
overwrite the first blend state with this model id, or push a new one
at the back. -/
def setBlend (bs : List BlendState) (nb : BlendState) : List BlendState :=
  match bs with
  | [] => [nb]
  | b :: rest => if b.modelId = nb.modelId then nb :: rest
                 else b :: setBlend rest nb

/-- Source `animation_blend` (animation_system.cpp:54-86): no validation of
`blendTime`; captures `currentAnimation` as `fromAnimation`, resets
progress, marks the blend active, and sets the model's looping flag. -/
def animation_blend (s : EngineState) (modelId : ℕ) (animName : String)
    (blendTime : ℝ) (loop : Bool) : EngineState × AnimResult :=
  match model_get s modelId with
  | none => (s, .modelNotFound)
  | some model =>
      match model.animationNameToIndex.lookup animName with
      | none => (s, .clipNotFound)
      | some idx =>
          let nb : BlendState :=
            ⟨modelId, model.currentAnimation, idx, blendTime, 0, true⟩
          ({ models := updateFirstModel s.models modelId (fun m =>
               { m with animationLooping := loop }),
             blendStates := setBlend s.blendStates nb }, .ok)

/-- One iteration of the blend-update loop
(animation_system.cpp:273-290): skip inactive states, deactivate when
the model is gone, otherwise advance `blendProgress` by
`dt / blendTime` and on reaching 1 switch the model to the target
clip, reset its time and deactivate the blend. -/
def updateBlend (ms : List Model) (dt : ℝ) (b : BlendState) :
    List Model × BlendState :=
  if b.active = false then (ms, b)
  else
    match modelGetL ms b.modelId with
    | none => (ms, { b with active := false })
    | some _ =>
        if 1 ≤ b.blendProgress + dt / b.blendTime then
          (updateFirstModel ms b.modelId (fun m =>
             { m with currentAnimation := b.toAnimation,
                      animationTime := 0 }),
           { b with blendProgress := b.blendProgress + dt / b.blendTime,
                    active := false })
        else (ms, { b with blendProgress := b.blendProgress + dt / b.blendTime })

/-- The whole blend-update loop, processing blend states in order while
threading the model mutations. -/
def updateBlends (ms : List Model) (dt : ℝ) :
    List BlendState → List Model × List BlendState
  | [] => (ms, [])
  | b :: rest =>
      let step := updateBlend ms dt b
      let next := updateBlends step.1 dt rest
      (next.1, step.2 :: next.2)

/-- Source `animation_update` (animation_system.cpp:271-298): run the blend
loop, then erase-remove every inactive blend state. -/
def animation_update (dt : ℝ) (s : EngineState) : EngineState :=
  let r := updateBlends s.models dt s.blendStates
  { models := r.1, blendStates := r.2.filter (fun b => b.active) }

/-- C `trunc`: round toward zero. -/
def realTrunc (x : ℝ) : ℝ := if 0 ≤ x then (⌊x⌋ : ℝ) else (⌈x⌉ : ℝ)

/-- C `fmod` on reals: `x - trunc(x / y) * y`. -/
def fmodReal (x y : ℝ) : ℝ := x - y * realTrunc (x / y)

/-- The per-model animation-clock advancement inside `model_draw_all`
(model_loader.cpp:428-437): with an active animation, add `dt` and, when
looping and strictly past the duration, wrap with `fmod`. -/
def tickTime (dt : ℝ) (m : Model) : ℝ :=
  if m.animationLooping = true ∧
      (m.animations.getD m.currentAnimation dclip).duration <
        m.animationTime + dt then
    fmodReal (m.animationTime + dt)
      (m.animations.getD m.currentAnimation dclip).duration
  else m.animationTime + dt

/-- The guarded clock update of one model inside `model_draw_all`. -/
def tickModel (dt : ℝ) (m : Model) : Model :=
  if m.animations.length ≠ 0 ∧ m.currentAnimation < m.animations.length then
    { m with animationTime := tickTime dt m }
  else m

/-- Source `model_draw_all` (model_loader.cpp:422-441) restricted to its
animation effect: advance every model's clock (drawing is a TODO
placeholder in the source). -/
def model_draw_all (dt : ℝ) (s : EngineState) : EngineState :=
  { s with models := s.models.map (tickModel dt) }

/-- Source `gods_render_frame` (gods_engine.cpp:92-104) restricted to its
animation effect: `animation_update(dt)` then `model_draw_all(dt)`;
no other animation function is invoked per frame. -/
def gods_render_frame (dt : ℝ) (s : EngineState) : EngineState :=
  model_draw_all dt (animation_update dt s)

/-- Source `animation_get_progress` (animation_system.cpp:300-309). -/
def animation_get_progress (s : EngineState) (modelId : ℕ) : ℝ :=
  match model_get s modelId with
  | none => -1
  | some m =>
      if m.animations.length = 0 then -1
      else if m.animations.length ≤ m.currentAnimation then -1
      else if (m.animations.getD m.currentAnimation dclip).duration ≤ 0 then 0
      else m.animationTime /
        (m.animations.getD m.currentAnimation dclip).duration

/-- Source `animation_is_finished` (animation_system.cpp:319-328). -/
def animation_is_finished (s : EngineState) (modelId : ℕ) : Bool :=
  match model_get s modelId with
  | none => true
  | some m =>
      if m.animations.length = 0 then true
      else if m.animations.length ≤ m.currentAnimation then true
      else if m.animationLooping = true then false
      else decide ((m.animations.getD m.currentAnimation dclip).duration ≤
        m.animationTime)

/-- The bracketing-keyframe search loop (animation_system.cpp:159-166):
the first index `i` in `[0, n-2]` with
`kfs[i].time <= time < kfs[i+1].time`, if any. -/
def bracketIndex (kfs : List Keyframe) (time : ℝ) : Option ℕ :=
  (List.range (kfs.length - 1)).find? (fun i =>
    decide ((kfs.getD i dkf).time ≤ time) &&
    decide (time < (kfs.getD (i + 1) dkf).time))

/-- Keyframe-pair selection (animation_system.cpp:158-171): the found
bracket `(i, i+1)`, or — via the `k1 == 0` test — the last keyframe
taken for both endpoints when no bracket contains `time`. -/
def sampleKeys (kfs : List Keyframe) (time : ℝ) : ℕ × ℕ :=
  let p : ℕ × ℕ :=
    match bracketIndex kfs time with
    | some i => (i, i + 1)
    | none => (0, 0)
  if p.2 = 0 then (kfs.length - 1, kfs.length - 1) else p

/-- The interpolation factor (animation_system.cpp:173-179): 0 when the
two selected keyframes coincide. -/
def interpFactor (kfs : List Keyframe) (time : ℝ) (k : ℕ × ℕ) : ℝ :=
  if k.1 ≠ k.2 then
    let t0 := (kfs.getD k.1 dkf).time
    let t1 := (kfs.getD k.2 dkf).time
    (time - t0) / (t1 - t0)
  else 0

/-- The per-property write into the joint's local transform
(animation_system.cpp:186-225): translation into entries 12-14, rotation
converted to the 3x3 block, scale multiplied into the diagonal. -/
def writeProperty (lt : Mat4) (prop : ChannelProperty) (v0 v1 : Vec4)
    (t : ℝ) : Mat4 :=
  match prop with
  | .translation =>
      { lt with m12 := lerp v0.x v1.x t, m13 := lerp v0.y v1.y t,
                m14 := lerp v0.z v1.z t }
  | .rotation =>
      let q := slerp v0 v1 t
      { lt with
        m0 := 1 - 2*(q.y*q.y + q.z*q.z)
        m1 := 2*(q.x*q.y + q.w*q.z)
        m2 := 2*(q.x*q.z - q.w*q.y)
        m4 := 2*(q.x*q.y - q.w*q.z)
        m5 := 1 - 2*(q.x*q.x + q.z*q.z)
        m6 := 2*(q.y*q.z + q.w*q.x)
        m8 := 2*(q.x*q.z + q.w*q.y)
        m9 := 2*(q.y*q.z - q.w*q.x)
        m10 := 1 - 2*(q.x*q.x + q.y*q.y) }
  | .scale =>
      { lt with m0 := lt.m0 * lerp v0.x v1.x t,
                m5 := lt.m5 * lerp v0.y v1.y t,
                m10 := lt.m10 * lerp v0.z v1.z t }

/-- The value `v0` selected by the channel loop
(animation_system.cpp:181). -/
def chV0 (ch : AnimationChannel) (time : ℝ) : Vec4 :=
  (ch.keyframes.getD (sampleKeys ch.keyframes time).1 dkf).value

/-- The value `v1` selected by the channel loop
(animation_system.cpp:182). -/
def chV1 (ch : AnimationChannel) (time : ℝ) : Vec4 :=
  (ch.keyframes.getD (sampleKeys ch.keyframes time).2 dkf).value

/-- The interpolation factor of the channel loop
(animation_system.cpp:173-179). -/
def chT (ch : AnimationChannel) (time : ℝ) : ℝ :=
  interpFactor ch.keyframes time (sampleKeys ch.keyframes time)

/-- The in-place write to the joint targeted by a channel. -/
def channelJointUpdate (ch : AnimationChannel) (time : ℝ) (j : Joint) :
    Joint :=
  { j with localTransform :=
      (writeProperty j.localTransform ch.property (chV0 ch time)
        (chV1 ch time) (chT ch time)) }

/-- One iteration of the channel loop of `animation_sample`
(animation_system.cpp:154-226): skip a channel with no keyframes or an
out-of-range joint index, otherwise select keyframes, compute the
factor and write the property into the targeted joint. -/
def applyChannel (joints : List Joint) (time : ℝ)
    (ch : AnimationChannel) : List Joint :=
  if ch.keyframes.length = 0 then joints
  else if joints.length ≤ ch.jointIndex then joints
  else joints.modify (channelJointUpdate ch time) ch.jointIndex

/-- Source `animation_sample` (animation_system.cpp:147-227): a no-op when the
model has no animations or `currentAnimation` is out of range; otherwise
fold the channel loop of the current clip over the skeleton's joints. -/
def animation_sample (m : Model) (time : ℝ) : Model :=
  if m.animations.length = 0 then m
  else if m.animations.length ≤ m.currentAnimation then m
  else
    { m with skeleton :=
        ⟨(m.animations.getD m.currentAnimation dclip).channels.foldl
          (fun js ch => applyChannel js time ch) m.skeleton.joints⟩ }

/-- The per-joint global transform (animation_system.cpp:247-259):
roots copy their local transform, others multiply the already-stored
parent global (entries not yet written read as the zero-initialised
buffer) by the local transform. -/
def globalOf (acc : List Mat4) (j : Joint) : Mat4 :=
  if j.parentIndex < 0 then j.localTransform
  else mat4_multiply (acc.getD j.parentIndex.toNat mat4_zero)
         j.localTransform

/-- The forward pass filling `globalTransforms`
(animation_system.cpp:244-259), carried out on the prefix written so
far. -/
def computeGlobalsAux (acc : List Mat4) : List Joint → List Mat4
  | [] => acc
  | j :: rest => computeGlobalsAux (acc ++ [globalOf acc j]) rest

/-- All global transforms of a joint list. -/
def computeGlobals (joints : List Joint) : List Mat4 :=
  computeGlobalsAux [] joints

/-- Source `animation_compute_bone_matrices` (animation_system.cpp:241-269):
early return on an empty skeleton, otherwise rewrite the whole
`boneMatrices` buffer with `global[i] * inverseBind[i]`. -/
def animation_compute_bone_matrices (m : Model) : Model :=
  if m.skeleton.joints.length = 0 then m
  else
    let bones := List.zipWith
      (fun g j => mat4_multiply g j.inverseBindMatrix)
      (computeGlobals m.skeleton.joints) m.skeleton.joints
    { m with boneMatrices := bones }

/-- Default joint used as the `getD` fallback in statements. -/
def djoint : Joint := ⟨"", -1, mat4_identity, mat4_identity⟩

/-! Helper lemmas about the list-backed model registry. -/

theorem modelGetL_updateFirstModel (ms : List Model) (modelId : ℕ)
    (f : Model → Model) (hf : ∀ m, (f m).id = m.id) :
    modelGetL (updateFirstModel ms modelId f) modelId =
      (modelGetL ms modelId).map f := by
  induction ms with
  | nil => rfl
  | cons m rest ih =>
      unfold updateFirstModel
      by_cases h : m.id = modelId
      · rw [if_pos h]
        unfold modelGetL
        rw [List.find?_cons_of_pos _ (by simp [hf, h]),
           List.find?_cons_of_pos _ (by simp [h])]
        rfl
      · rw [if_neg h]
        unfold modelGetL
        rw [List.find?_cons_of_neg _ (by simp [h]),
           List.find?_cons_of_neg _ (by simp [h])]
        exact ih

theorem modelGetL_updateFirstModel_ne (ms : List Model) (i j : ℕ) (hij : i ≠ j)
    (f : Model → Model) (hf : ∀ m, (f m).id = m.id) :
    modelGetL (updateFirstModel ms i f) j = modelGetL ms j := by
  induction ms with
  | nil => rfl
  | cons m rest ih =>
      unfold updateFirstModel
      by_cases h : m.id = i
      · rw [if_pos h]
        unfold modelGetL
        rw [List.find?_cons_of_neg _ (by simp [hf, h]; exact hij),
           List.find?_cons_of_neg _ (by simp [h]; exact hij)]
      · rw [if_neg h]
        unfold modelGetL
        by_cases h2 : m.id = j
        · rw [List.find?_cons_of_pos _ (by simp [h2]),
             List.find?_cons_of_pos _ (by simp [h2])]
        · rw [List.find?_cons_of_neg _ (by simp [h2]),
             List.find?_cons_of_neg _ (by simp [h2])]
          exact ih

/-! Concrete fixtures used by the closed evaluation theorems below: a
model with two clips, each a single constant-translation keyframe, and
one root joint whose stale local transform carries the sentinel entry 5
in the translation slot. -/

/-- Clip named A: one translation keyframe of value (0,0,0) at time 0. -/
def clipA : AnimationClip :=
  ⟨"A", 1, [⟨0, .translation, [⟨0, ⟨0, 0, 0, 0⟩⟩]⟩]⟩

/-- Clip named B: one translation keyframe of value (2,0,0) at time 0. -/
def clipB : AnimationClip :=
  ⟨"B", 1, [⟨0, .translation, [⟨0, ⟨2, 0, 0, 0⟩⟩]⟩]⟩

/-- A root joint whose current local transform has 5 in entry 12. -/
def joint0 : Joint := ⟨"root", -1, mat4_identity, { mat4_identity with m12 := 5 }⟩

/-- A model with the two clips, playing clip A, loop on, time 0. -/
def model1 : Model :=
  ⟨1, [clipA, clipB], [("A", 0), ("B", 1)], ⟨[joint0]⟩, 0, 0, true, [mat4_identity]⟩

/-- An active blend on model 1 from clip 0 to clip 1 over 1 second. -/
def blend1 : BlendState := ⟨1, 0, 1, 1, 0, true⟩

/-- Engine state with the model and the active blend. -/
def stateB : EngineState := ⟨[model1], [blend1]⟩

/-- C2, counterexample: `animation_set` with the known clip name B on a
model that has an active blend leaves `g_blendStates` untouched — the
blend is still present and active, so `setAnimation` does not clear
active blends as claimed. -/
theorem c2_counterexample :
    ((animation_set stateB 1 "B" true).1).blendStates = [blend1] ∧
    blend1.active = true := by
  constructor
  · simp [animation_set, model_get, modelGetL, stateB, model1, List.find?,
      List.lookup, updateFirstModel]
  · rfl

/-- C2 (amended): with a model present, `animation_set` with an unknown
clip name changes no state and reports the clip-not-found log path;
with a known clip name it sets `currentAnimation` to that clip, resets
`animationTime` to 0, sets the looping flag — and leaves the blend-state
list unchanged (the source never clears blends here). -/
theorem c2_animation_set_spec (s : EngineState) (modelId : ℕ)
    (animName : String) (loop : Bool) (m : Model)
    (hm : model_get s modelId = some m) :
    (m.animationNameToIndex.lookup animName = none →
        animation_set s modelId animName loop = (s, AnimResult.clipNotFound)) ∧
    (∀ idx, m.animationNameToIndex.lookup animName = some idx →
        (animation_set s modelId animName loop).2 = AnimResult.ok ∧
        ((animation_set s modelId animName loop).1).blendStates =
          s.blendStates ∧
        model_get (animation_set s modelId animName loop).1 modelId =
          some { m with currentAnimation := idx, animationTime := 0,
                        animationLooping := loop }) := by
  constructor
  · intro hl
    unfold animation_set
    simp only [hm, hl]
  · intro idx hl
    unfold animation_set
    simp only [hm, hl]
    refine ⟨trivial, trivial, ?_⟩
    unfold model_get at hm ⊢
    rw [show ({ s with models := updateFirstModel s.models modelId fun m =>
          { m with currentAnimation := idx, animationTime := 0,
                   animationLooping := loop } } : EngineState).models =
        updateFirstModel s.models modelId (fun m =>
          { m with currentAnimation := idx, animationTime := 0,
                   animationLooping := loop }) from rfl,
      modelGetL_updateFirstModel s.models modelId
        (fun m => { m with currentAnimation := idx, animationTime := 0,
                           animationLooping := loop }) (fun _ => rfl), hm]
    rfl

/-- C2, witness: the amended theorem applied to the concrete fixture
state for both the unknown-clip and the known-clip branch. -/
theorem c2_witness :
    animation_set stateB 1 "Nonexistent" true = (stateB, AnimResult.clipNotFound) ∧
    (animation_set stateB 1 "B" false).2 = AnimResult.ok := by
  have hm : model_get stateB 1 = some model1 := by
    simp [model_get, modelGetL, stateB, List.find?, model1]
  have h := c2_animation_set_spec stateB 1 "Nonexistent" true model1 hm
  have h2 := c2_animation_set_spec stateB 1 "B" false model1 hm
  refine ⟨h.1 (by simp [model1, List.lookup]), ?_⟩
  exact (h2.2 1 (by simp [model1, List.lookup])).1

/-- Engine state with the two-clip model and no blend. -/
def state1 : EngineState := ⟨[model1], []⟩

/-- A model playing a non-looping one-second clip from time 0. -/
def modelNL : Model :=
  ⟨2, [⟨"Attack", 1, []⟩], [("Attack", 0)], ⟨[]⟩, 0, 0, false, []⟩

/-- Engine state holding only the non-looping model. -/
def stateNL : EngineState := ⟨[modelNL], []⟩

/-- A model playing a looping two-second clip from time 0. -/
def modelLoop : Model :=
  ⟨3, [⟨"Idle", 2, []⟩], [("Idle", 0)], ⟨[]⟩, 0, 0, true, []⟩

/-- C3: evaluation of the code at the degenerate input `blendTime = -1`.
The blend request is accepted (result ok, state mutated, no
`InvalidBlendDuration` report exists in the code), and after the next
tick of one second the blend progress has moved to -1: still below 1
and still active, so the request was neither rejected nor treated as an
instantaneous switch completing on the next tick. -/
theorem c3_degenerate_blend_eval :
    (animation_blend state1 1 "B" (-1) true).2 = AnimResult.ok ∧
    ((animation_blend state1 1 "B" (-1) true).1).blendStates =
      [⟨1, 0, 1, -1, 0, true⟩] ∧
    (animation_update 1
        (animation_blend state1 1 "B" (-1) true).1).blendStates =
      [⟨1, 0, 1, -1, -1, true⟩] ∧
    ((-1 : ℝ) < 1) := by
  refine ⟨?_, ?_, ?_, by norm_num⟩
  · simp [animation_blend, model_get, modelGetL, state1, model1,
      List.find?, List.lookup]
  · simp [animation_blend, model_get, modelGetL, state1, model1,
      List.find?, List.lookup, setBlend]
  · simp [animation_blend, animation_update, updateBlends, updateBlend,
      setBlend, model_get, modelGetL, updateFirstModel, state1, model1,
      List.find?, List.lookup, List.filter,
      show (0 : ℝ) + 1 / (-1) = -1 from by norm_num,
      show (1 : ℝ) / (-1) = -1 from by norm_num,
      show ¬((1 : ℝ) ≤ -1) from by norm_num,
      show ¬((1 : ℝ) ≤ 0 + 1 / (-1)) from by norm_num]

/-- C6: evaluation of the code at the failing input: a non-looping
one-second clip ticked by 1.2 seconds from time 0.  The progress query
then returns 1.2, which is outside [0,1], contradicting both the claim
and the header comment "Get animation progress (0.0 to 1.0)". -/
theorem c6_progress_eval :
    animation_get_progress (gods_render_frame (6/5) stateNL) 2 = 6/5 ∧
    (1 : ℝ) < 6/5 := by
  refine ⟨?_, by norm_num⟩
  simp [animation_get_progress, gods_render_frame, animation_update,
    updateBlends, model_draw_all, tickModel, tickTime, model_get, modelGetL,
    stateNL, modelNL, List.find?, dclip,
    show ¬((1 : ℝ) ≤ 0) from by norm_num]

/-- C5, counterexample: a looping clip of duration 2 ticked by exactly
`dt = 2` from time 0 ends at `animationTime = 2`, which is not strictly
below the duration — the wrap test uses a strict comparison, so the
looping time lies in `[0, duration]`, not `[0, duration)`. -/
theorem c5_counterexample :
    (modelLoop.animations.getD modelLoop.currentAnimation dclip).duration = 2 ∧
    (tickModel 2 modelLoop).animationTime = 2 ∧
    ¬((tickModel 2 modelLoop).animationTime <
        (modelLoop.animations.getD modelLoop.currentAnimation dclip).duration) := by
  have h2 : (tickModel 2 modelLoop).animationTime = 2 := by
    simp [tickModel, tickTime, modelLoop, dclip]
  exact ⟨by norm_num [modelLoop, dclip], h2,
    by rw [h2]; norm_num [modelLoop, dclip]⟩

theorem fmodReal_nonneg_lt (x y : ℝ) (hy : 0 < y) (hx : y < x) :
    0 ≤ fmodReal x y ∧ fmodReal x y < y := by
  have h0 : (0 : ℝ) < x := lt_trans hy hx
  have hq : 0 < x / y := div_pos h0 hy
  have hyne : y ≠ 0 := ne_of_gt hy
  have heq : fmodReal x y = y * Int.fract (x / y) := by
    unfold fmodReal realTrunc
    rw [if_pos hq.le, Int.fract]
    field_simp
  constructor
  · rw [heq]
    exact mul_nonneg hy.le (Int.fract_nonneg _)
  · rw [heq]
    calc y * Int.fract (x / y) < y * 1 :=
          mul_lt_mul_of_pos_left (Int.fract_lt_one _) hy
      _ = y := mul_one y

/-- C5 (amended): after a tick, a looping model's `animationTime` lies
in the closed interval `[0, duration]` (it equals `duration` exactly
when the advanced time lands on the boundary, since the wrap test is
strict); a non-looping model's time accumulates to `time + dt`; and
`animation_is_finished` returns true exactly when no model or no valid
animation is present, or looping is off and the time has reached the
duration. -/
theorem c5_time_bounds_and_finished (dt : ℝ) (m : Model) (s : EngineState)
    (modelId : ℕ) :
    (m.animations.length ≠ 0 → m.currentAnimation < m.animations.length →
      m.animationLooping = true →
      0 < (m.animations.getD m.currentAnimation dclip).duration →
      0 ≤ m.animationTime → 0 ≤ dt →
      0 ≤ (tickModel dt m).animationTime ∧
        (tickModel dt m).animationTime ≤
          (m.animations.getD m.currentAnimation dclip).duration) ∧
    (m.animations.length ≠ 0 → m.currentAnimation < m.animations.length →
      m.animationLooping = false →
      (tickModel dt m).animationTime = m.animationTime + dt) ∧
    (animation_is_finished s modelId = true ↔
      model_get s modelId = none ∨ ∃ mm, model_get s modelId = some mm ∧
        (mm.animations.length = 0 ∨
         mm.animations.length ≤ mm.currentAnimation ∨
         (mm.animationLooping = false ∧
          (mm.animations.getD mm.currentAnimation dclip).duration ≤
            mm.animationTime))) := by
  refine ⟨?_, ?_, ?_⟩
  · intro h1 h2 hloop hdur ht hdt
    unfold tickModel
    rw [if_pos ⟨h1, h2⟩]
    show 0 ≤ tickTime dt m ∧ tickTime dt m ≤ _
    unfold tickTime
    by_cases hw : (m.animations.getD m.currentAnimation dclip).duration <
        m.animationTime + dt
    · rw [if_pos ⟨hloop, hw⟩]
      have hb := fmodReal_nonneg_lt (m.animationTime + dt)
        (m.animations.getD m.currentAnimation dclip).duration hdur hw
      exact ⟨hb.1, hb.2.le⟩
    · rw [if_neg (fun hc => hw hc.2)]
      exact ⟨add_nonneg ht hdt, le_of_not_lt hw⟩
  · intro h1 h2 hloop
    unfold tickModel
    rw [if_pos ⟨h1, h2⟩]
    show tickTime dt m = _
    unfold tickTime
    rw [if_neg (fun hc => by rw [hloop] at hc; exact Bool.false_ne_true hc.1)]
  · unfold animation_is_finished
    cases hG : model_get s modelId with
    | none => simp
    | some mm =>
        simp only [hG, Option.some.injEq, reduceCtorEq, false_or,
          exists_eq_left']
        by_cases hz : mm.animations.length = 0
        · simp [hz]
        · rw [if_neg hz]
          by_cases hc : mm.animations.length ≤ mm.currentAnimation
          · simp [hz, hc]
          · rw [if_neg hc]
            by_cases hl : mm.animationLooping = true
            · simp [hz, hc, hl]
            · have hl2 : mm.animationLooping = false := by
                revert hl
                cases mm.animationLooping <;> simp
              simp [hz, hc, hl2]

/-- C5, witness: the amended bounds at `dt = 5/2` on the looping
two-second clip, and exact accumulation at `dt = 6/5` on the non-looping
model. -/
theorem c5_witness :
    (0 ≤ (tickModel (5/2) modelLoop).animationTime ∧
      (tickModel (5/2) modelLoop).animationTime ≤
        (modelLoop.animations.getD modelLoop.currentAnimation dclip).duration) ∧
    (tickModel (6/5) modelNL).animationTime = modelNL.animationTime + 6/5 := by
  constructor
  · exact (c5_time_bounds_and_finished (5/2) modelLoop stateNL 2).1
      (by norm_num [modelLoop]) (by norm_num [modelLoop]) rfl
      (by norm_num [modelLoop, dclip]) (by norm_num [modelLoop]) (by norm_num)
  · exact (c5_time_bounds_and_finished (6/5) modelNL stateNL 2).2.1
      (by norm_num [modelNL]) (by norm_num [modelNL]) rfl

/-- C10: the sampler never reads a joint or keyframe out of bounds — it
is the identity when the model has no animations or `currentAnimation`
is out of range, and a channel with an empty keyframe list or an
out-of-range joint index is skipped, leaving the joint list (and hence
that joint's local transform) unchanged. -/
theorem c10_sampler_bounds :
    (∀ (m : Model) (t : ℝ), m.animations.length = 0 →
        animation_sample m t = m) ∧
    (∀ (m : Model) (t : ℝ), m.animations.length ≤ m.currentAnimation →
        animation_sample m t = m) ∧
    (∀ (js : List Joint) (t : ℝ) (ch : AnimationChannel),
        ch.keyframes.length = 0 → applyChannel js t ch = js) ∧
    (∀ (js : List Joint) (t : ℝ) (ch : AnimationChannel),
        js.length ≤ ch.jointIndex → applyChannel js t ch = js) := by
  refine ⟨?_, ?_, ?_, ?_⟩
  · intro m t h
    unfold animation_sample
    rw [if_pos h]
  · intro m t h
    unfold animation_sample
    by_cases hz : m.animations.length = 0
    · rw [if_pos hz]
    · rw [if_neg hz, if_pos h]
  · intro js t ch h
    unfold applyChannel
    rw [if_pos h]
  · intro js t ch h
    unfold applyChannel
    by_cases hz : ch.keyframes.length = 0
    · rw [if_pos hz]
    · rw [if_neg hz, if_pos h]

/-- C10, witness: the four skip paths exercised on concrete inputs. -/
theorem c10_witness :
    animation_sample { model1 with animations := [] } 1 =
      { model1 with animations := [] } ∧
    animation_sample { model1 with currentAnimation := 7 } 1 =
      { model1 with currentAnimation := 7 } ∧
    applyChannel [joint0] 1 ⟨0, .translation, []⟩ = [joint0] ∧
    applyChannel [joint0] 1 ⟨5, .translation, [⟨0, ⟨1, 1, 1, 1⟩⟩]⟩ =
      [joint0] := by
  refine ⟨c10_sampler_bounds.1 _ 1 rfl,
    c10_sampler_bounds.2.1 _ 1 (by simp [model1]),
    c10_sampler_bounds.2.2.1 _ 1 _ rfl,
    c10_sampler_bounds.2.2.2 _ 1 _ (by simp)⟩

/-! Helper lemmas for the keyframe-clamping analysis (C4). -/

theorem keyframe_time_mono (kfs : List Keyframe)
    (hs : kfs.Pairwise (fun a b => a.time ≤ b.time)) {i j : ℕ}
    (hij : i ≤ j) (hj : j < kfs.length) :
    (kfs.getD i dkf).time ≤ (kfs.getD j dkf).time := by
  rcases Nat.eq_or_lt_of_le hij with h | h
  · rw [h]
  · have hi : i < kfs.length := lt_trans h hj
    rw [List.getD_eq_getElem _ _ hi, List.getD_eq_getElem _ _ hj]
    exact List.pairwise_iff_getElem.mp hs i j hi hj h

theorem bracketIndex_eq_none_before (kfs : List Keyframe) (time : ℝ)
    (hs : kfs.Pairwise (fun a b => a.time ≤ b.time))
    (h0 : time < (kfs.getD 0 dkf).time) :
    bracketIndex kfs time = none := by
  unfold bracketIndex
  rw [List.find?_eq_none]
  intro i hi
  rw [List.mem_range] at hi
  simp only [Bool.and_eq_true, decide_eq_true_eq, not_and]
  intro hle
  have hmono : (kfs.getD 0 dkf).time ≤ (kfs.getD i dkf).time :=
    keyframe_time_mono kfs hs (Nat.zero_le i)
      (Nat.lt_of_lt_of_le hi (Nat.sub_le _ _))
  linarith

theorem bracketIndex_eq_none_after (kfs : List Keyframe) (time : ℝ)
    (hs : kfs.Pairwise (fun a b => a.time ≤ b.time))
    (hne : kfs.length ≠ 0)
    (hlast : (kfs.getD (kfs.length - 1) dkf).time ≤ time) :
    bracketIndex kfs time = none := by
  unfold bracketIndex
  rw [List.find?_eq_none]
  intro i hi
  rw [List.mem_range] at hi
  simp only [Bool.and_eq_true, decide_eq_true_eq, not_and]
  intro _ hlt
  have hmono : (kfs.getD (i + 1) dkf).time ≤ (kfs.getD (kfs.length - 1) dkf).time :=
    keyframe_time_mono kfs hs (by omega) (by omega)
  linarith

theorem sampleKeys_of_none (kfs : List Keyframe) (time : ℝ)
    (h : bracketIndex kfs time = none) :
    sampleKeys kfs time = (kfs.length - 1, kfs.length - 1) := by
  unfold sampleKeys
  rw [h]
  simp

theorem getD_modify_self (js : List Joint) (i : ℕ) (f : Joint → Joint)
    (h : i < js.length) :
    (js.modify f i).getD i djoint = f (js.getD i djoint) := by
  have h2 : i < (js.modify f i).length := by simpa using h
  rw [List.getD_eq_getElem _ _ h2, List.getD_eq_getElem _ _ h,
    List.getElem_modify_eq]

/-- C4 (amended): sampling outside the keyframe range clamps to the
LAST keyframe in both directions — a time before the first keyframe and
a time at or after the last keyframe both select the last keyframe for
both interpolation endpoints with factor 0 (the source's fallback `k0 =
k1 = size - 1` applies whenever no bracketing pair contains the time) —
and a channel with exactly one keyframe yields that keyframe's value at
every time. -/
theorem c4_clamp_spec (kfs : List Keyframe) (time : ℝ)
    (hs : kfs.Pairwise (fun a b => a.time ≤ b.time))
    (hne : kfs.length ≠ 0) :
    (time < (kfs.getD 0 dkf).time →
      sampleKeys kfs time = (kfs.length - 1, kfs.length - 1) ∧
      interpFactor kfs time (sampleKeys kfs time) = 0) ∧
    ((kfs.getD (kfs.length - 1) dkf).time ≤ time →
      sampleKeys kfs time = (kfs.length - 1, kfs.length - 1) ∧
      interpFactor kfs time (sampleKeys kfs time) = 0) ∧
    (∀ k : Keyframe, kfs = [k] →
      sampleKeys kfs time = (0, 0) ∧
      ∀ (js : List Joint) (jidx : ℕ), jidx < js.length →
        ((applyChannel js time ⟨jidx, .translation, [k]⟩).getD jidx
            djoint).localTransform.m12 = k.value.x ∧
        ((applyChannel js time ⟨jidx, .translation, [k]⟩).getD jidx
            djoint).localTransform.m13 = k.value.y ∧
        ((applyChannel js time ⟨jidx, .translation, [k]⟩).getD jidx
            djoint).localTransform.m14 = k.value.z) := by
  refine ⟨?_, ?_, ?_⟩
  · intro h0
    have hk := sampleKeys_of_none kfs time
      (bracketIndex_eq_none_before kfs time hs h0)
    exact ⟨hk, by rw [hk]; simp [interpFactor]⟩
  · intro hlast
    have hk := sampleKeys_of_none kfs time
      (bracketIndex_eq_none_after kfs time hs hne hlast)
    exact ⟨hk, by rw [hk]; simp [interpFactor]⟩
  · intro k hkfs
    subst hkfs
    have hk : sampleKeys [k] time = (0, 0) := by
      have hnone : bracketIndex [k] time = none := by
        unfold bracketIndex
        simp
      rw [sampleKeys_of_none [k] time hnone]
      rfl
    refine ⟨hk, ?_⟩
    intro js jidx hj
    unfold applyChannel
    rw [if_neg (by simp), if_neg (by simpa using hj)]
    rw [show (⟨jidx, .translation, [k]⟩ : AnimationChannel).jointIndex = jidx
      from rfl]
    rw [getD_modify_self js jidx _ hj]
    simp [channelJointUpdate, writeProperty, chV0, chV1, chT, hk,
      interpFactor, lerp]

/-- C4, witness: the amended clamping behaviour on a concrete sorted
two-keyframe channel and on a singleton channel. -/
theorem c4_witness :
    (sampleKeys [⟨1, ⟨10, 0, 0, 0⟩⟩, ⟨2, ⟨20, 0, 0, 0⟩⟩] 0 = (1, 1) ∧
      interpFactor [⟨1, ⟨10, 0, 0, 0⟩⟩, ⟨2, ⟨20, 0, 0, 0⟩⟩] 0
        (sampleKeys [⟨1, ⟨10, 0, 0, 0⟩⟩, ⟨2, ⟨20, 0, 0, 0⟩⟩] 0) = 0) ∧
    sampleKeys [⟨0, ⟨7, 8, 9, 0⟩⟩] 5 = (0, 0) := by
  constructor
  · exact (c4_clamp_spec [⟨1, ⟨10, 0, 0, 0⟩⟩, ⟨2, ⟨20, 0, 0, 0⟩⟩] 0
      (by norm_num [List.pairwise_cons]) (by simp)).1
      (by norm_num [dkf])
  · exact ((c4_clamp_spec [⟨0, ⟨7, 8, 9, 0⟩⟩] 5
      (by simp) (by simp)).2.2 ⟨0, ⟨7, 8, 9, 0⟩⟩ rfl).1

/-- C4, counterexample: with keyframes at times 1 and 2, sampling at
time 0 — before the first keyframe — selects the LAST keyframe (value
20), not the first keyframe (value 10) as the claim states. -/
theorem c4_counterexample :
    ((applyChannel [joint0] 0
        ⟨0, .translation, [⟨1, ⟨10, 0, 0, 0⟩⟩, ⟨2, ⟨20, 0, 0, 0⟩⟩]⟩).getD 0
        djoint).localTransform.m12 = 20 ∧
    (20 : ℝ) ≠ 10 := by
  constructor
  · simp [applyChannel, channelJointUpdate, writeProperty, chV0, chV1, chT,
      sampleKeys, bracketIndex, interpFactor, lerp, joint0, dkf,
      List.modify, List.range, List.find?,
      show ¬((1 : ℝ) ≤ 0) from by norm_num]
    rfl
  · norm_num

/-! Helper lemmas for the bone-matrix pass (C7). -/

theorem mat4_identity_multiply (b : Mat4) : mat4_multiply mat4_identity b = b := by
  cases b
  simp [mat4_multiply, mat4_identity]

theorem computeGlobalsAux_length (js : List Joint) :
    ∀ acc : List Mat4, (computeGlobalsAux acc js).length =
      acc.length + js.length := by
  induction js with
  | nil => intro acc; simp [computeGlobalsAux]
  | cons j rest ih =>
      intro acc
      show (computeGlobalsAux (acc ++ [globalOf acc j]) rest).length = _
      rw [ih]
      simp
      omega

theorem computeGlobals_length (js : List Joint) :
    (computeGlobals js).length = js.length := by
  unfold computeGlobals
  rw [computeGlobalsAux_length]
  simp

theorem computeGlobalsAux_concat (js : List Joint) (j : Joint) :
    ∀ acc : List Mat4, computeGlobalsAux acc (js ++ [j]) =
      computeGlobalsAux acc js ++ [globalOf (computeGlobalsAux acc js) j] := by
  induction js with
  | nil => intro acc; rfl
  | cons a rest ih =>
      intro acc
      show computeGlobalsAux (acc ++ [globalOf acc a]) (rest ++ [j]) = _
      rw [ih]
      rfl

/-- Topological ordering of a joint list, as hypothesised by the claim:
every joint is a root (`parentIndex = -1`) or has a parent strictly
before it. -/
def topoOk (js : List Joint) : Prop :=
  ∀ i, i < js.length → (js.getD i djoint).parentIndex = -1 ∨
    (0 ≤ (js.getD i djoint).parentIndex ∧
     (js.getD i djoint).parentIndex < (i : ℤ))

theorem computeGlobals_getD (js : List Joint) :
    topoOk js → ∀ i, i < js.length →
      (computeGlobals js).getD i mat4_zero =
        (if (js.getD i djoint).parentIndex = -1 then
          (js.getD i djoint).localTransform
         else
          mat4_multiply ((computeGlobals js).getD
              (js.getD i djoint).parentIndex.toNat mat4_zero)
            ((js.getD i djoint).localTransform)) := by
  induction js using List.reverseRecOn with
  | nil =>
      intro _ i hi
      simp at hi
  | append_singleton js j ih =>
      intro htopo i hi
      have hconcat : computeGlobals (js ++ [j]) =
          computeGlobals js ++ [globalOf (computeGlobals js) j] :=
        computeGlobalsAux_concat js j []
      have hlen : (computeGlobals js).length = js.length :=
        computeGlobals_length js
      have htopo' : topoOk js := by
        intro i2 hi2
        have h := htopo i2 (by simp; omega)
        rwa [List.getD_append _ _ _ _ hi2] at h
      rw [List.length_append, List.length_singleton] at hi
      rcases Nat.lt_or_ge i js.length with hlt | hge
      · have hrec := ih htopo' i hlt
        rw [hconcat, List.getD_append _ _ _ _ (by omega),
          List.getD_append _ _ _ _ hlt]
        rcases htopo' i hlt with hroot | ⟨hge0, hlt2⟩
        · rw [if_pos hroot] at hrec ⊢
          exact hrec
        · have hne : ¬((js.getD i djoint).parentIndex = -1) := by omega
          rw [if_neg hne] at hrec ⊢
          rw [List.getD_append _ _ _ _ (by omega)]
          exact hrec
      · have hieq : i = js.length := by omega
        subst hieq
        have hj : (js ++ [j]).getD js.length djoint = j := by
          rw [List.getD_append_right _ _ _ _ (le_refl _)]
          simp
        have hx : (computeGlobals js ++
            [globalOf (computeGlobals js) j]).getD js.length mat4_zero =
            globalOf (computeGlobals js) j := by
          rw [List.getD_append_right _ _ _ _ (by omega)]
          rw [hlen]
          simp
        rw [hconcat, hx, hj]
        unfold globalOf
        rcases htopo js.length (by simp) with hroot | ⟨hge0, hlt2⟩
        · rw [hj] at hroot
          rw [if_pos (by omega : j.parentIndex < 0), if_pos hroot]
        · rw [hj] at hge0 hlt2
          rw [if_neg (by omega : ¬(j.parentIndex < 0)),
            if_neg (by omega : ¬(j.parentIndex = -1)),
            List.getD_append _ _ _ _ (by omega)]

/-- C7: for every model whose skeleton is topologically ordered and
nonempty, the bone pass fully rewrites the bone buffer (independently
of its previous contents) with `bone[i] = global[i] * inverseBind[i]`,
where `global[i] = local[i]` for roots and
`global[i] = global[parent] * local[i]` otherwise; consequently a root
joint with identity local transform gets its inverse-bind matrix as its
bone matrix. -/
theorem c7_bone_matrices (m : Model) (htopo : topoOk m.skeleton.joints)
    (hne : m.skeleton.joints.length ≠ 0) :
    ((animation_compute_bone_matrices m).boneMatrices.length =
      m.skeleton.joints.length) ∧
    (∀ old : List Mat4,
      (animation_compute_bone_matrices
        { m with boneMatrices := old }).boneMatrices =
        (animation_compute_bone_matrices m).boneMatrices) ∧
    (∀ i, i < m.skeleton.joints.length →
      (animation_compute_bone_matrices m).boneMatrices.getD i mat4_zero =
        mat4_multiply ((computeGlobals m.skeleton.joints).getD i mat4_zero)
          ((m.skeleton.joints.getD i djoint).inverseBindMatrix)) ∧
    (∀ i, i < m.skeleton.joints.length →
      (computeGlobals m.skeleton.joints).getD i mat4_zero =
        (if (m.skeleton.joints.getD i djoint).parentIndex = -1 then
          (m.skeleton.joints.getD i djoint).localTransform
         else
          mat4_multiply ((computeGlobals m.skeleton.joints).getD
              (m.skeleton.joints.getD i djoint).parentIndex.toNat mat4_zero)
            ((m.skeleton.joints.getD i djoint).localTransform))) ∧
    (∀ i, i < m.skeleton.joints.length →
      (m.skeleton.joints.getD i djoint).parentIndex = -1 →
      (m.skeleton.joints.getD i djoint).localTransform = mat4_identity →
      (animation_compute_bone_matrices m).boneMatrices.getD i mat4_zero =
        (m.skeleton.joints.getD i djoint).inverseBindMatrix) := by
  have hlen : (computeGlobals m.skeleton.joints).length =
      m.skeleton.joints.length := computeGlobals_length _
  have hbones : (animation_compute_bone_matrices m).boneMatrices =
      List.zipWith (fun g j => mat4_multiply g j.inverseBindMatrix)
        (computeGlobals m.skeleton.joints) m.skeleton.joints := by
    unfold animation_compute_bone_matrices
    rw [if_neg hne]
  have hblen : (animation_compute_bone_matrices m).boneMatrices.length =
      m.skeleton.joints.length := by
    rw [hbones, List.length_zipWith, hlen, Nat.min_self]
  have hentry : ∀ i, i < m.skeleton.joints.length →
      (animation_compute_bone_matrices m).boneMatrices.getD i mat4_zero =
        mat4_multiply ((computeGlobals m.skeleton.joints).getD i mat4_zero)
          ((m.skeleton.joints.getD i djoint).inverseBindMatrix) := by
    intro i hi
    rw [hbones]
    rw [List.getD_eq_getElem _ _ (by rw [List.length_zipWith, hlen, Nat.min_self]; exact hi),
      List.getElem_zipWith,
      List.getD_eq_getElem _ _ (by rw [hlen]; exact hi),
      List.getD_eq_getElem _ _ hi]
  refine ⟨hblen, ?_, hentry, computeGlobals_getD m.skeleton.joints htopo, ?_⟩
  · intro old
    unfold animation_compute_bone_matrices
    rw [if_neg hne, if_neg hne]
  · intro i hi hroot hid
    rw [hentry i hi, computeGlobals_getD m.skeleton.joints htopo i hi,
      if_pos hroot, hid, mat4_identity_multiply]

/-- A distinctive inverse-bind matrix for the C7 witness skeleton. -/
def invBindW : Mat4 := { mat4_identity with m13 := 4 }

/-- Root joint of the witness skeleton: identity local transform. -/
def jointRoot : Joint := ⟨"root", -1, invBindW, mat4_identity⟩

/-- Child joint of the witness skeleton, parented to the root. -/
def jointChild : Joint := ⟨"child", 0, mat4_identity, mat4_identity⟩

/-- Witness model holding the two-joint skeleton. -/
def modelSkel : Model :=
  ⟨4, [], [], ⟨[jointRoot, jointChild]⟩, 0, 0, true, [mat4_zero, mat4_zero]⟩

/-- C7, witness: the bone pass on the concrete two-joint skeleton — the
buffer has one matrix per joint and the identity-local root's bone
matrix is exactly its inverse-bind matrix. -/
theorem c7_witness :
    (animation_compute_bone_matrices modelSkel).boneMatrices.length = 2 ∧
    (animation_compute_bone_matrices modelSkel).boneMatrices.getD 0
      mat4_zero = jointRoot.inverseBindMatrix := by
  have htopo : topoOk modelSkel.skeleton.joints := by
    intro i hi
    have hi2 : i < 2 := by simpa [modelSkel] using hi
    interval_cases i
    · left; rfl
    · right
      constructor
      · norm_num [modelSkel, jointChild]
      · norm_num [modelSkel, jointChild]
  have h := c7_bone_matrices modelSkel htopo (by norm_num [modelSkel])
  exact ⟨h.1, h.2.2.2.2 0 (by norm_num [modelSkel]) rfl rfl⟩

/-! Helper lemmas for the blend state machine (C9). -/

theorem updateBlend_modelId (ms : List Model) (dt : ℝ) (b : BlendState) :
    ((updateBlend ms dt b).2).modelId = b.modelId := by
  unfold updateBlend
  split
  · rfl
  · split
    · rfl
    · split
      · rfl
      · rfl

theorem updateBlend_models_ne (ms : List Model) (dt : ℝ) (b : BlendState)
    (M : ℕ) (hne : b.modelId ≠ M) :
    modelGetL (updateBlend ms dt b).1 M = modelGetL ms M := by
  unfold updateBlend
  split
  · rfl
  · split
    · rfl
    · split
      · exact modelGetL_updateFirstModel_ne ms b.modelId M hne _ (fun _ => rfl)
      · rfl

theorem updateBlends_ne (dt : ℝ) (M : ℕ) :
    ∀ (bs : List BlendState) (ms : List Model),
      (∀ b2 ∈ bs, b2.modelId ≠ M) →
      modelGetL (updateBlends ms dt bs).1 M = modelGetL ms M ∧
      ∀ b2 ∈ (updateBlends ms dt bs).2, b2.modelId ≠ M := by
  intro bs
  induction bs with
  | nil =>
      intro ms _
      exact ⟨rfl, by intro b2 hb2; simp [updateBlends] at hb2⟩
  | cons b rest ih =>
      intro ms h
      have hb : b.modelId ≠ M := h b (List.mem_cons_self b rest)
      have hrest := ih (updateBlend ms dt b).1
        (fun b2 hb2 => h b2 (List.mem_cons_of_mem _ hb2))
      constructor
      · show modelGetL (updateBlends (updateBlend ms dt b).1 dt rest).1 M = _
        rw [hrest.1]
        exact updateBlend_models_ne ms dt b M hb
      · intro b2 hb2
        have hb2' : b2 = (updateBlend ms dt b).2 ∨
            b2 ∈ (updateBlends (updateBlend ms dt b).1 dt rest).2 := by
          simpa [updateBlends] using hb2
        rcases hb2' with h2 | h2
        · rw [h2, updateBlend_modelId]
          exact hb
        · exact hrest.2 b2 h2

theorem updateBlends_append (dt : ℝ) (l1 l2 : List BlendState) :
    ∀ ms : List Model, updateBlends ms dt (l1 ++ l2) =
      ((updateBlends (updateBlends ms dt l1).1 dt l2).1,
       (updateBlends ms dt l1).2 ++
         (updateBlends (updateBlends ms dt l1).1 dt l2).2) := by
  induction l1 with
  | nil => intro ms; simp [updateBlends]
  | cons b rest ih =>
      intro ms
      simp only [List.cons_append, updateBlends, List.append_eq]
      rw [ih]

/-- C9: for a model with the (unique) active blend of positive
`blendTime`, the per-tick progress update is monotone for nonnegative
`dt`; when the new progress reaches 1 the model switches to the target
clip with `animationTime = 0` and no blend for that model survives the
tick, and otherwise the blend survives with exactly the advanced
progress and the model untouched. -/
theorem c9_blend_progress (s : EngineState) (pre post : List BlendState)
    (b : BlendState) (m : Model) (dt : ℝ)
    (hbs : s.blendStates = pre ++ b :: post)
    (hpre : ∀ b2 ∈ pre, b2.modelId ≠ b.modelId)
    (hpost : ∀ b2 ∈ post, b2.modelId ≠ b.modelId)
    (hactive : b.active = true) (hbt : 0 < b.blendTime) (hdt : 0 ≤ dt)
    (hm : model_get s b.modelId = some m) :
    (b.blendProgress ≤ b.blendProgress + dt / b.blendTime) ∧
    (1 ≤ b.blendProgress + dt / b.blendTime →
      model_get (animation_update dt s) b.modelId =
        some { m with currentAnimation := b.toAnimation,
                      animationTime := 0 } ∧
      ∀ b2 ∈ (animation_update dt s).blendStates, b2.modelId ≠ b.modelId) ∧
    (b.blendProgress + dt / b.blendTime < 1 →
      model_get (animation_update dt s) b.modelId = some m ∧
      { b with blendProgress := b.blendProgress + dt / b.blendTime } ∈
        (animation_update dt s).blendStates) := by
  have hupd : animation_update dt s =
      ⟨(updateBlends s.models dt s.blendStates).1,
       (updateBlends s.models dt s.blendStates).2.filter
         (fun b2 => b2.active)⟩ := rfl
  have hpre' := updateBlends_ne dt b.modelId pre s.models hpre
  have hms1 : modelGetL (updateBlends s.models dt pre).1 b.modelId =
      some m := by
    rw [hpre'.1]
    exact hm
  have hsplit := updateBlends_append dt pre (b :: post) s.models
  refine ⟨le_add_of_nonneg_right (div_nonneg hdt hbt.le), ?_, ?_⟩
  · intro hc
    have hstep : updateBlend (updateBlends s.models dt pre).1 dt b =
        (updateFirstModel (updateBlends s.models dt pre).1 b.modelId
          (fun mm => { mm with currentAnimation := b.toAnimation,
                               animationTime := 0 }),
         { b with blendProgress := b.blendProgress + dt / b.blendTime,
                  active := false }) := by
      unfold updateBlend
      rw [if_neg (by simp [hactive])]
      simp only [hms1]
      rw [if_pos hc]
    have hpost' := updateBlends_ne dt b.modelId post
      (updateBlend (updateBlends s.models dt pre).1 dt b).1 hpost
    constructor
    · rw [hupd]
      show modelGetL (updateBlends s.models dt s.blendStates).1 b.modelId = _
      rw [hbs, hsplit]
      show modelGetL (updateBlends (updateBlends s.models dt pre).1 dt
        (b :: post)).1 b.modelId = _
      simp only [updateBlends]
      rw [hpost'.1, hstep]
      show modelGetL (updateFirstModel (updateBlends s.models dt pre).1
        b.modelId (fun mm => { mm with currentAnimation := b.toAnimation,
                                       animationTime := 0 })) b.modelId = _
      rw [modelGetL_updateFirstModel (updateBlends s.models dt pre).1
        b.modelId (fun mm => { mm with currentAnimation := b.toAnimation,
                                       animationTime := 0 })
        (fun _ => rfl), hms1]
      rfl
    · intro b2 hb2
      rw [hupd] at hb2
      have hb2' : b2 ∈ (updateBlends s.models dt s.blendStates).2 ∧
          b2.active = true := by
        simpa using (List.mem_filter.mp hb2)
      rw [hbs, hsplit] at hb2'
      have hb2'' : b2 ∈ (updateBlends s.models dt pre).2 ∨
          b2 = (updateBlend (updateBlends s.models dt pre).1 dt b).2 ∨
          b2 ∈ (updateBlends
            (updateBlend (updateBlends s.models dt pre).1 dt b).1 dt
            post).2 := by
        have := hb2'.1
        simp only [updateBlends] at this
        rcases List.mem_append.mp this with h2 | h2
        · exact Or.inl h2
        · rcases List.mem_cons.mp h2 with h3 | h3
          · exact Or.inr (Or.inl h3)
          · exact Or.inr (Or.inr h3)
      rcases hb2'' with h2 | h2 | h2
      · exact hpre'.2 b2 h2
      · rw [hstep] at h2
        rw [h2] at hb2'
        simp at hb2'
      · exact hpost'.2 b2 h2
  · intro hc
    have hcn : ¬(1 ≤ b.blendProgress + dt / b.blendTime) := not_le.mpr hc
    have hstep : updateBlend (updateBlends s.models dt pre).1 dt b =
        ((updateBlends s.models dt pre).1,
         { b with blendProgress := b.blendProgress + dt / b.blendTime }) := by
      unfold updateBlend
      rw [if_neg (by simp [hactive])]
      simp only [hms1]
      rw [if_neg hcn]
    have hpost' := updateBlends_ne dt b.modelId post
      (updateBlend (updateBlends s.models dt pre).1 dt b).1 hpost
    constructor
    · rw [hupd]
      show modelGetL (updateBlends s.models dt s.blendStates).1 b.modelId = _
      rw [hbs, hsplit]
      show modelGetL (updateBlends (updateBlends s.models dt pre).1 dt
        (b :: post)).1 b.modelId = _
      simp only [updateBlends]
      rw [hpost'.1, hstep]
      exact hms1
    · rw [hupd]
      show _ ∈ (updateBlends s.models dt s.blendStates).2.filter
        (fun b2 => b2.active)
      rw [hbs, hsplit]
      apply List.mem_filter.mpr
      constructor
      · apply List.mem_append.mpr
        apply Or.inr
        simp only [updateBlends]
        apply List.mem_cons.mpr
        apply Or.inl
        rw [hstep]
      · simpa using hactive

/-- C9, witness: the concrete blend of `blendTime = 1` on the fixture
state, run once with `dt = 1/4` (survives at progress 1/4) and once
with `dt = 2` (completes: the model switches to clip 1 at time 0 and no
blend survives). -/
theorem c9_witness :
    ({ blend1 with blendProgress := blend1.blendProgress + (1/4) / blend1.blendTime } ∈
      (animation_update (1/4) stateB).blendStates) ∧
    model_get (animation_update 2 stateB) 1 =
      some { model1 with currentAnimation := 1, animationTime := 0 } := by
  have hm : model_get stateB 1 = some model1 := by
    simp [model_get, modelGetL, stateB, List.find?, model1]
  have h1 := c9_blend_progress stateB [] [] blend1 model1 (1/4) rfl
    (by intro b2 hb2; simp at hb2) (by intro b2 hb2; simp at hb2)
    rfl (by norm_num [blend1]) (by norm_num) hm
  have h2 := c9_blend_progress stateB [] [] blend1 model1 2 rfl
    (by intro b2 hb2; simp at hb2) (by intro b2 hb2; simp at hb2)
    rfl (by norm_num [blend1]) (by norm_num) hm
  constructor
  · exact (h1.2.2 (by norm_num [blend1])).2
  · exact (h2.2.1 (by norm_num [blend1])).1

/-- C1: evaluation of the code at a concrete blending model.  After one
frame tick of `dt = 1/2` from the fixture state (active blend from clip
A to clip B over one second), the blend is mid-way (`blendProgress =
1/2 < 1`), but the model's pose is untouched: the joint's translation
entry still holds the stale sentinel 5.  The frame loop
(`gods_render_frame` = `animation_update` + `model_draw_all`) never
calls `animation_sample` — sampling clip A at the current time would
give translation 0, clip B would give 2, and the interpolation the
claim demands would give `lerp 0 2 (1/2) = 1 ≠ 5`. -/
theorem c1_no_blend_sampling_eval :
    ((animation_update (1/2) stateB).blendStates =
      [⟨1, 0, 1, 1, 1/2, true⟩]) ∧
    ((1 : ℝ)/2 < 1) ∧
    ((model_get (gods_render_frame (1/2) stateB) 1).map
        (fun mm => (mm.skeleton.joints.getD 0 djoint).localTransform.m12) =
      some 5) ∧
    (((animation_sample { model1 with currentAnimation := 0 }
        (1/2)).skeleton.joints.getD 0 djoint).localTransform.m12 = 0) ∧
    (((animation_sample { model1 with currentAnimation := 1 }
        (1/2)).skeleton.joints.getD 0 djoint).localTransform.m12 = 2) ∧
    (lerp 0 2 (1/2) = 1) ∧ ((5 : ℝ) ≠ 1) := by
  refine ⟨?_, by norm_num, ?_, ?_, ?_, by norm_num [lerp], by norm_num⟩
  · simp [animation_update, updateBlends, updateBlend, stateB, model1,
      blend1, modelGetL, List.find?, List.filter,
      show ¬((1 : ℝ) ≤ 0 + 1/2 / 1) from by norm_num]
    norm_num
  · simp [gods_render_frame, animation_update, updateBlends, updateBlend,
      model_draw_all, tickModel, tickTime, model_get, modelGetL, stateB,
      model1, blend1, joint0, clipA, clipB, dclip, djoint, List.find?,
      List.filter, Function.comp,
      show ¬((1 : ℝ) ≤ 0 + 1/2 / 1) from by norm_num,
      show ¬((1 : ℝ) < 0 + 1/2) from by norm_num,
      show ¬((1 : ℝ) ≤ 2⁻¹) from by norm_num,
      show ¬((1 : ℝ) < 2⁻¹) from by norm_num,
      show ¬((1 : ℝ) < 0 + 2⁻¹) from by norm_num]
  · simp [animation_sample, applyChannel, channelJointUpdate, writeProperty,
      chV0, chV1, chT, sampleKeys, bracketIndex, interpFactor, lerp,
      model1, clipA, clipB, joint0, dkf, djoint, dclip,
      List.modify, List.range, List.find?]
  · simp [animation_sample, applyChannel, channelJointUpdate, writeProperty,
      chV0, chV1, chT, sampleKeys, bracketIndex, interpFactor, lerp,
      model1, clipA, clipB, joint0, dkf, djoint, dclip,
      List.modify, List.range, List.find?]

/-! Helper lemmas for the quaternion interpolation (C8). -/

theorem qdot_qneg (a b : Vec4) : qdot a (qneg b) = -(qdot a b) := by
  simp [qdot, qneg]
  ring

theorem quatNormSq_qneg (a : Vec4) : quatNormSq (qneg a) = quatNormSq a := by
  simp [quatNormSq, qneg]

theorem vlerp4_zero (a b : Vec4) : vlerp4 a b 0 = a := by
  simp [vlerp4, lerp]

theorem vlerp4_one (a b : Vec4) : vlerp4 a b 1 = b := by
  have hx : lerp a.x b.x 1 = b.x := by unfold lerp; ring
  have hy : lerp a.y b.y 1 = b.y := by unfold lerp; ring
  have hz : lerp a.z b.z 1 = b.z := by unfold lerp; ring
  have hw : lerp a.w b.w 1 = b.w := by unfold lerp; ring
  show (⟨lerp a.x b.x 1, lerp a.y b.y 1, lerp a.z b.z 1,
    lerp a.w b.w 1⟩ : Vec4) = b
  rw [hx, hy, hz, hw]

theorem slerpD_nonneg (q1 q2 : Vec4) : 0 ≤ slerpD q1 q2 := by
  unfold slerpD
  split
  · linarith
  · linarith [not_lt.mp (by assumption : ¬ qdot q1 q2 < 0)]

theorem qdot_slerpQ2 (q1 q2 : Vec4) :
    qdot q1 (slerpQ2 q1 q2) = slerpD q1 q2 := by
  unfold slerpQ2 slerpD
  split
  · rw [qdot_qneg]
  · rfl

theorem quatNormSq_slerpQ2 (q1 q2 : Vec4) :
    quatNormSq (slerpQ2 q1 q2) = quatNormSq q2 := by
  unfold slerpQ2
  split
  · exact quatNormSq_qneg q2
  · rfl

theorem qnormalize_of_normSq_one (v : Vec4) (h : quatNormSq v = 1) :
    qnormalize v = v := by
  unfold qnormalize
  rw [h, Real.sqrt_one]
  rw [if_pos one_pos]
  simp

theorem qnormalize_normSq_one (v : Vec4) (h : 0 < quatNormSq v) :
    quatNormSq (qnormalize v) = 1 := by
  unfold qnormalize
  have hs : 0 < Real.sqrt (quatNormSq v) := Real.sqrt_pos.mpr h
  rw [if_pos hs]
  have hvs : quatNormSq ⟨v.x / Real.sqrt (quatNormSq v),
      v.y / Real.sqrt (quatNormSq v), v.z / Real.sqrt (quatNormSq v),
      v.w / Real.sqrt (quatNormSq v)⟩ =
      quatNormSq v / (Real.sqrt (quatNormSq v) * Real.sqrt (quatNormSq v)) := by
    simp [quatNormSq]
    ring
  rw [hvs, Real.mul_self_sqrt (le_of_lt h)]
  exact div_self (ne_of_gt h)

theorem quatNormSq_vlerp4 (a b : Vec4) (t : ℝ) :
    quatNormSq (vlerp4 a b t) =
      quatNormSq a * ((1 - t) * (1 - t)) + quatNormSq b * (t * t) +
        2 * t * (1 - t) * qdot a b := by
  simp [quatNormSq, vlerp4, lerp, qdot]
  ring

theorem quatNormSq_vcomb (a b : Vec4) (u v : ℝ) :
    quatNormSq (vcomb a b u v) =
      quatNormSq a * (u * u) + quatNormSq b * (v * v) +
        2 * u * v * qdot a b := by
  simp [quatNormSq, vcomb, qdot]
  ring

theorem slerp_trig (d : ℝ) (hd0 : 0 ≤ d) (hd1 : d ≤ 0.9995) :
    0 < Real.arccos d ∧ Real.arccos d ≤ Real.pi / 2 ∧
      0 < Real.sin (Real.arccos d) := by
  have hpos : 0 < Real.arccos d := Real.arccos_pos.mpr (by linarith)
  have hle : Real.arccos d ≤ Real.pi / 2 :=
    Real.arccos_le_pi_div_two.mpr hd0
  refine ⟨hpos, hle, Real.sin_pos_of_pos_of_lt_pi hpos ?_⟩
  calc Real.arccos d ≤ Real.pi / 2 := hle
    _ < Real.pi := by linarith [Real.pi_pos]

theorem slerp_zero (q1 q2 : Vec4) (h1 : quatNormSq q1 = 1) :
    slerp q1 q2 0 = q1 := by
  unfold slerp
  split
  · rw [vlerp4_zero]
    exact qnormalize_of_normSq_one q1 h1
  · have hd0 := slerpD_nonneg q1 q2
    have hd1 : slerpD q1 q2 ≤ 0.9995 :=
      le_of_not_lt (by assumption)
    obtain ⟨hθ, hθle, hs⟩ := slerp_trig (slerpD q1 q2) hd0 hd1
    have hw1 : slerpW1 (slerpD q1 q2) 0 = 1 := by
      unfold slerpW1
      rw [show (1 : ℝ) - 0 = 1 by ring, one_mul]
      exact div_self (ne_of_gt hs)
    have hw2 : slerpW2 (slerpD q1 q2) 0 = 0 := by
      unfold slerpW2
      rw [zero_mul, Real.sin_zero, zero_div]
    rw [hw1, hw2]
    have hv : vcomb q1 (slerpQ2 q1 q2) 1 0 = q1 := by
      simp [vcomb]
    rw [hv]
    exact qnormalize_of_normSq_one q1 h1

theorem slerp_one (q1 q2 : Vec4) (h2 : quatNormSq q2 = 1) :
    slerp q1 q2 1 = slerpQ2 q1 q2 := by
  have hq2n : quatNormSq (slerpQ2 q1 q2) = 1 := by
    rw [quatNormSq_slerpQ2]
    exact h2
  unfold slerp
  split
  · rw [vlerp4_one]
    exact qnormalize_of_normSq_one _ hq2n
  · have hd0 := slerpD_nonneg q1 q2
    have hd1 : slerpD q1 q2 ≤ 0.9995 :=
      le_of_not_lt (by assumption)
    obtain ⟨hθ, hθle, hs⟩ := slerp_trig (slerpD q1 q2) hd0 hd1
    have hw1 : slerpW1 (slerpD q1 q2) 1 = 0 := by
      unfold slerpW1
      rw [show (1 : ℝ) - 1 = 0 by ring, zero_mul, Real.sin_zero, zero_div]
    have hw2 : slerpW2 (slerpD q1 q2) 1 = 1 := by
      unfold slerpW2
      rw [one_mul]
      exact div_self (ne_of_gt hs)
    rw [hw1, hw2]
    have hv : vcomb q1 (slerpQ2 q1 q2) 0 1 = slerpQ2 q1 q2 := by
      simp [vcomb]
    rw [hv]
    exact qnormalize_of_normSq_one _ hq2n

theorem slerp_normSq (q1 q2 : Vec4) (t : ℝ)
    (h1 : quatNormSq q1 = 1) (h2 : quatNormSq q2 = 1)
    (ht0 : 0 ≤ t) (ht1 : t ≤ 1) :
    quatNormSq (slerp q1 q2 t) = 1 := by
  have hq2n : quatNormSq (slerpQ2 q1 q2) = 1 := by
    rw [quatNormSq_slerpQ2]
    exact h2
  have hdd := qdot_slerpQ2 q1 q2
  have hd0 := slerpD_nonneg q1 q2
  unfold slerp
  split
  next hb =>
    apply qnormalize_normSq_one
    rw [quatNormSq_vlerp4, h1, hq2n, hdd]
    nlinarith [mul_nonneg (mul_nonneg (by linarith : (0:ℝ) ≤ 2 * t)
        (by linarith : (0:ℝ) ≤ 1 - t)) hd0,
      sq_nonneg (1 - 2 * t)]
  next hb =>
    have hd1 : slerpD q1 q2 ≤ 0.9995 := le_of_not_lt hb
    obtain ⟨hθ, hθle, hs⟩ := slerp_trig _ hd0 hd1
    apply qnormalize_normSq_one
    rw [quatNormSq_vcomb, h1, hq2n, hdd]
    have hw1nn : 0 ≤ slerpW1 (slerpD q1 q2) t := by
      unfold slerpW1
      apply div_nonneg _ hs.le
      apply Real.sin_nonneg_of_nonneg_of_le_pi
      · exact mul_nonneg (by linarith) hθ.le
      · calc (1 - t) * Real.arccos (slerpD q1 q2) ≤
            1 * Real.arccos (slerpD q1 q2) :=
              mul_le_mul_of_nonneg_right (by linarith) hθ.le
          _ = Real.arccos (slerpD q1 q2) := one_mul _
          _ ≤ Real.pi / 2 := hθle
          _ ≤ Real.pi := by linarith [Real.pi_pos]
    have hw2nn : 0 ≤ slerpW2 (slerpD q1 q2) t := by
      unfold slerpW2
      apply div_nonneg _ hs.le
      apply Real.sin_nonneg_of_nonneg_of_le_pi
      · exact mul_nonneg ht0 hθ.le
      · calc t * Real.arccos (slerpD q1 q2) ≤
            1 * Real.arccos (slerpD q1 q2) :=
              mul_le_mul_of_nonneg_right ht1 hθ.le
          _ = Real.arccos (slerpD q1 q2) := one_mul _
          _ ≤ Real.pi / 2 := hθle
          _ ≤ Real.pi := by linarith [Real.pi_pos]
    by_cases ht : t = 0
    · subst ht
      have hw1 : slerpW1 (slerpD q1 q2) 0 = 1 := by
        unfold slerpW1
        rw [show (1 : ℝ) - 0 = 1 by ring, one_mul]
        exact div_self (ne_of_gt hs)
      have hw2 : slerpW2 (slerpD q1 q2) 0 = 0 := by
        unfold slerpW2
        rw [zero_mul, Real.sin_zero, zero_div]
      rw [hw1, hw2]
      norm_num
    · have htpos : 0 < t := lt_of_le_of_ne ht0 (Ne.symm ht)
      have hw2pos : 0 < slerpW2 (slerpD q1 q2) t := by
        unfold slerpW2
        apply div_pos _ hs
        apply Real.sin_pos_of_pos_of_lt_pi
        · exact mul_pos htpos hθ
        · calc t * Real.arccos (slerpD q1 q2) ≤
              1 * Real.arccos (slerpD q1 q2) :=
                mul_le_mul_of_nonneg_right ht1 hθ.le
            _ = Real.arccos (slerpD q1 q2) := one_mul _
            _ ≤ Real.pi / 2 := hθle
            _ < Real.pi := by linarith [Real.pi_pos]
      nlinarith [mul_pos hw2pos hw2pos,
        mul_nonneg hw1nn hw1nn,
        mul_nonneg (mul_nonneg hw1nn hw2nn) hd0]

/-- C8: the quaternion interpolation negates the second endpoint when
the dot product is negative (hemisphere correction), falls back to
normalised linear interpolation when the corrected dot product exceeds
0.9995, always returns a unit-norm quaternion for unit inputs and
`t ∈ [0, 1]`, and at `t = 0` and `t = 1` returns `q1` and the
hemisphere-corrected `q2` respectively. -/
theorem c8_slerp_spec (q1 q2 : Vec4) (t : ℝ)
    (h1 : quatNormSq q1 = 1) (h2 : quatNormSq q2 = 1)
    (ht0 : 0 ≤ t) (ht1 : t ≤ 1) :
    (qdot q1 q2 < 0 → slerp q1 q2 t = slerp q1 (qneg q2) t) ∧
    ((0.9995 : ℝ) < slerpD q1 q2 →
      slerp q1 q2 t = qnormalize (vlerp4 q1 (slerpQ2 q1 q2) t)) ∧
    quatNormSq (slerp q1 q2 t) = 1 ∧
    slerp q1 q2 0 = q1 ∧
    slerp q1 q2 1 = slerpQ2 q1 q2 ∧
    (qdot q1 q2 < 0 → slerpQ2 q1 q2 = qneg q2) ∧
    (0 ≤ qdot q1 q2 → slerpQ2 q1 q2 = q2) := by
  refine ⟨?_, ?_, slerp_normSq q1 q2 t h1 h2 ht0 ht1,
    slerp_zero q1 q2 h1, slerp_one q1 q2 h2, ?_, ?_⟩
  · intro hneg
    have hD : slerpD q1 (qneg q2) = slerpD q1 q2 := by
      unfold slerpD
      rw [qdot_qneg]
      rw [if_neg (by linarith), if_pos hneg]
    have hQ : slerpQ2 q1 (qneg q2) = slerpQ2 q1 q2 := by
      unfold slerpQ2
      rw [qdot_qneg]
      rw [if_neg (by linarith), if_pos hneg]
    unfold slerp
    rw [hD, hQ]
  · intro hb
    unfold slerp
    rw [if_pos hb]
  · intro hneg
    unfold slerpQ2
    rw [if_pos hneg]
  · intro hpos
    unfold slerpQ2
    rw [if_neg (not_lt.mpr hpos)]

/-- The identity quaternion, used in the C8 witness. -/
def q01 : Vec4 := ⟨0, 0, 0, 1⟩

/-- C8, witness: the interpolation applied to concrete unit quaternions
at `t = 1/2`, `t = 0` and `t = 1`. -/
theorem c8_witness :
    quatNormSq (slerp q01 q01 (1/2)) = 1 ∧
    slerp q01 q01 0 = q01 ∧
    slerp q01 q01 1 = slerpQ2 q01 q01 := by
  have h := c8_slerp_spec q01 q01 (1/2)
    (by norm_num [quatNormSq, q01]) (by norm_num [quatNormSq, q01])
    (by norm_num) (by norm_num)
  exact ⟨h.2.2.1, h.2.2.2.1, h.2.2.2.2.1⟩

end

end Gods
